import Mathlib

/-
Shallow embedding of the document-scanner pipeline in
src/scanner/src/main/cpp/scanner.cpp.

Modelling conventions:
- Pixel points (cv::Point) are pairs of integers.
- C++ double arithmetic on values derived from integer pixel coordinates is
  modelled exactly over the rationals. In particular the strict comparison
  fabs(angleCos) < 0.4, where angleCos = dot / sqrt(prod + 1e-10), is
  modelled by the equivalent exact rational comparison
  dot ^ 2 / (prod + 1 / 10 ^ 10) < (4 / 10) ^ 2 = 4 / 25,
  which holds iff the real-valued comparison does, because both sides of
  the original comparison are nonnegative.
- The C cast (int) of a nonnegative double sqrt is modelled by the natural
  floor square root, and the C cast (int) of interpolated coordinates by
  integer division truncating toward zero (Int.tdiv).
- The gradient-magnitude map (cv::Mat of CV_32F) is modelled as a structure
  carrying its dimensions and a total value function; the pipeline only ever
  reads it through bounds-checked lookups.
- OpenCV mask construction (Canny, thresholds, morphology, findContours,
  approxPolyDP) lives outside the embedding; the pipeline stages that the
  claims concern are modelled from the point where an approximated polygon
  is tested and pushed into the candidate pool (collectQuads, lines 144-157)
  and from the point where the pool is complete (detectDocument,
  lines 391-436), with the pool itself a parameter.
-/

namespace Scanner

/-- A pixel point, as cv::Point: integer x and y coordinates. -/
structure Pt where
  x : Int
  y : Int
deriving DecidableEq, Repr

/-- Default point used for out-of-range list reads. -/
def dPt : Pt := ⟨0, 0⟩

/-- Coordinate sum x + y, used by orderPoints (s[i] in the source). -/
def sOf (p : Pt) : Int := p.x + p.y

/-- Coordinate difference y - x, used by orderPoints (d[i] in the source). -/
def dOf (p : Pt) : Int := p.y - p.x

/-- First element of the list minimizing f, as std::min_element
(scanner.cpp line 58): the incumbent is replaced only when the new value is
strictly smaller, so the first minimum wins. Returns dPt on the empty list,
which never arises in the pipeline. -/
def argminBy (f : Pt → Int) : List Pt → Pt
  | [] => dPt
  | p :: rest => rest.foldl (fun a q => if f q < f a then q else a) p

/-- First element of the list maximizing f, as std::max_element
(scanner.cpp lines 59, 61): the incumbent is replaced only when the new value
is strictly larger, so the first maximum wins. -/
def argmaxBy (f : Pt → Int) : List Pt → Pt
  | [] => dPt
  | p :: rest => rest.foldl (fun a q => if f a < f q then q else a) p

/-- orderPoints (scanner.cpp lines 51-63): slot 0 gets the first point with
minimal x + y, slot 1 the first with minimal y - x, slot 2 the first with
maximal x + y, slot 3 the first with maximal y - x. -/
def orderPoints (pts : List Pt) : List Pt :=
  [argminBy sOf pts, argminBy dOf pts, argmaxBy sOf pts, argmaxBy dOf pts]

/-- Square of the angle cosine computed by angleCos (scanner.cpp lines
43-49), with the source epsilon 1e-10 added to the product under the square
root. fabs (angleCos p1 p2 p0) < c holds for real arithmetic iff
angleCosSq p1 p2 p0 < c ^ 2, for any c > 0. -/
def angleCosSq (p1 p2 p0 : Pt) : ℚ :=
  let dx1 : ℚ := (p1.x : ℚ) - (p0.x : ℚ)
  let dy1 : ℚ := (p1.y : ℚ) - (p0.y : ℚ)
  let dx2 : ℚ := (p2.x : ℚ) - (p0.x : ℚ)
  let dy2 : ℚ := (p2.y : ℚ) - (p0.y : ℚ)
  (dx1 * dx2 + dy1 * dy2) ^ 2
    / ((dx1 * dx1 + dy1 * dy1) * (dx2 * dx2 + dy2 * dy2) + 1 / 10 ^ 10)

/-- Denominator under the square root in angleCos: the product of the two
squared edge lengths plus the 1e-10 epsilon. -/
def angleDenom (p1 p2 p0 : Pt) : ℚ :=
  let dx1 : ℚ := (p1.x : ℚ) - (p0.x : ℚ)
  let dy1 : ℚ := (p1.y : ℚ) - (p0.y : ℚ)
  let dx2 : ℚ := (p2.x : ℚ) - (p0.x : ℚ)
  let dy2 : ℚ := (p2.y : ℚ) - (p0.y : ℚ)
  (dx1 * dx1 + dy1 * dy1) * (dx2 * dx2 + dy2 * dy2) + 1 / 10 ^ 10

/-- Cyclic consecutive pairs of a list: (l[i], l[(i+1) % n]) for each i.
For a 4-point quad these are exactly the 4 edges (quad[i], quad[(i+1)%4])
iterated by the source loops. -/
def cyclicPairs (l : List Pt) : List (Pt × Pt) := l.zip (l.rotate 1)

/-- Twice the signed polygon area (shoelace sum), as accumulated by
cv::contourArea over consecutive point pairs. -/
def shoelace2 (quad : List Pt) : Int :=
  ((cyclicPairs quad).map fun pq => pq.1.x * pq.2.y - pq.1.y * pq.2.x).sum

/-- cv::contourArea with oriented=false: absolute value of half the
shoelace sum. -/
def contourArea (quad : List Pt) : ℚ := |(shoelace2 quad : ℚ)| / 2

/-- Cross products of consecutive edge vectors, taken cyclically, as
examined by cv::isContourConvex. -/
def edgeCrosses (quad : List Pt) : List Int :=
  let edges := (cyclicPairs quad).map fun pq => Pt.mk (pq.2.x - pq.1.x) (pq.2.y - pq.1.y)
  (edges.zip (edges.rotate 1)).map fun ee => ee.1.x * ee.2.y - ee.1.y * ee.2.x

/-- cv::isContourConvex: the polygon is convex iff no two consecutive-edge
cross products have strictly opposite signs. -/
def isContourConvex (quad : List Pt) : Bool :=
  !((edgeCrosses quad).any (fun c => decide (0 < c)) &&
    (edgeCrosses quad).any (fun c => decide (c < 0)))

/-- Border test of isGoodQuad (scanner.cpp lines 82-86) with an explicit
margin: the point lies within margin pixels of some border of a w x h image. -/
def nearBorder (margin w h : Int) (p : Pt) : Bool :=
  decide (p.x ≤ margin) || decide (p.y ≤ margin) ||
  decide (p.x ≥ w - margin - 1) || decide (p.y ≥ h - margin - 1)

/-- Angle screening loop of isGoodQuad (scanner.cpp lines 89-94): for
j = 2, 3, 4 it bounds fabs (angleCos (quad[j % 4]) (quad[j - 2]) (quad[j - 1]))
by 0.4, which screens the interior angles at vertices 1, 2 and 3 only.
Comparisons are the exact squared forms of the source double comparisons. -/
def angleOK (quad : List Pt) : Bool :=
  decide (angleCosSq (quad.getD 2 dPt) (quad.getD 0 dPt) (quad.getD 1 dPt) < 4 / 25) &&
  decide (angleCosSq (quad.getD 3 dPt) (quad.getD 1 dPt) (quad.getD 2 dPt) < 4 / 25) &&
  decide (angleCosSq (quad.getD 0 dPt) (quad.getD 2 dPt) (quad.getD 3 dPt) < 4 / 25)

/-- isGoodQuad (scanner.cpp lines 73-95): area within [5%, 85%] of the
working-image area, convex, fewer than 3 corners within 5 pixels of the
border, and the angle screening loop passes. -/
def isGoodQuad (quad : List Pt) (imgArea : ℚ) (imgW imgH : Int) : Bool :=
  if decide (contourArea quad < imgArea * (5 / 100)) ||
     decide (imgArea * (85 / 100) < contourArea quad) then false
  else if !isContourConvex quad then false
  else if 3 ≤ (quad.filter (nearBorder 5 imgW imgH)).length then false
  else angleOK quad

/-- Admission test applied by collectQuads before pushing a candidate
(scanner.cpp lines 150-154): the approximated polygon has exactly 4 vertices
and passes isGoodQuad. -/
def pushesCandidate (approx : List Pt) (imgArea : ℚ) (imgW imgH : Int) : Bool :=
  approx.length == 4 && isGoodQuad approx imgArea imgW imgH

/-- The gradient-magnitude map (cv::Mat of CV_32F): its dimensions and a
total value function. The pipeline reads it only through bounds-checked
lookups, so values outside the rectangle are irrelevant. -/
structure GradMap where
  cols : Int
  rows : Int
  val : Int → Int → ℚ

/-- Bounds check of computeEdgeScore (scanner.cpp line 111). -/
def inBounds (g : GradMap) (x y : Int) : Bool :=
  decide (0 ≤ x) && decide (x < g.cols) && decide (0 ≤ y) && decide (y < g.rows)

/-- The C cast (int)edgeLen where edgeLen = cv::norm(p2 - p1): the floor of
the square root of the squared edge length. -/
def edgeLenFloor (p1 p2 : Pt) : Nat :=
  Nat.sqrt (((p2.x - p1.x) ^ 2 + (p2.y - p1.y) ^ 2).toNat)

/-- Sample count per edge (scanner.cpp line 106): max(10, edge length). -/
def nSamplesOf (p1 p2 : Pt) : Nat := max 10 (edgeLenFloor p1 p2)

/-- Sample s of n along the segment from p1 to p2 (scanner.cpp lines
108-110): x = (int)(p1.x + (s / n) * (p2.x - p1.x)) and likewise for y.
The exact rational p1.x + (s / n) * (p2.x - p1.x) equals
(p1.x * n + s * (p2.x - p1.x)) / n, and the C truncation toward zero of a
fraction with positive denominator n is Int.tdiv of its numerator by n. -/
def samplePoint (p1 p2 : Pt) (n : Nat) (s : Nat) : Int × Int :=
  (Int.tdiv (p1.x * n + s * (p2.x - p1.x)) n,
   Int.tdiv (p1.y * n + s * (p2.y - p1.y)) n)

/-- All sample points of one edge, s = 0 .. nSamples - 1. -/
def edgeSampleList (p1 p2 : Pt) : List (Int × Int) :=
  (List.range (nSamplesOf p1 p2)).map (samplePoint p1 p2 (nSamplesOf p1 p2))

/-- Accumulation step of computeEdgeScore (scanner.cpp lines 111-114):
an in-bounds sample adds its gradient value to the running total and bumps
the sample counter; an out-of-bounds sample is skipped. -/
def scoreStep (g : GradMap) (acc : ℚ × Nat) (xy : Int × Int) : ℚ × Nat :=
  if inBounds g xy.1 xy.2 then (acc.1 + g.val xy.1 xy.2, acc.2 + 1) else acc

/-- computeEdgeScore (scanner.cpp lines 99-118): accumulate gradient values
over the bounds-checked samples of the 4 edges, then divide the total by
the number of accumulated samples, or return 0 when none were accumulated. -/
def computeEdgeScore (quad : List Pt) (g : GradMap) : ℚ :=
  let acc := (cyclicPairs quad).foldl
    (fun acc e => (edgeSampleList e.1 e.2).foldl (scoreStep g) acc)
    ((0 : ℚ), (0 : Nat))
  if 0 < acc.2 then acc.1 / (acc.2 : ℚ) else 0

/-- Concatenation of the sample points of all edges of the quad. -/
def allSamples (quad : List Pt) : List (Int × Int) :=
  (cyclicPairs quad).flatMap fun e => edgeSampleList e.1 e.2

/-- The in-bounds sample points of the quad. -/
def validSamples (quad : List Pt) (g : GradMap) : List (Int × Int) :=
  (allSamples quad).filter fun xy => inBounds g xy.1 xy.2

/-- Modelled from the spec wording of section 4.4, for comparison with
computeEdgeScore: the sum of the gradient values at the valid (in-bounds)
samples divided by the count of valid samples, or 0 if no valid sample
exists. -/
def edgeScoreSpec (quad : List Pt) (g : GradMap) : ℚ :=
  let vs := validSamples quad g
  if vs.isEmpty then 0 else ((vs.map fun xy => g.val xy.1 xy.2).sum) / (vs.length : ℚ)

/-- A pooled candidate (scanner.cpp lines 67-71): the 4-point quad, its
area recomputed from the quad, and its edge-support score. -/
structure Candidate where
  quad : List Pt
  area : ℚ
  edgeScore : ℚ
deriving DecidableEq

/-- Default candidate used for out-of-range list reads. -/
def dCand : Candidate := ⟨[], 0, 0⟩

/-- Index scan of std::max_element (scanner.cpp lines 407-410): i is the
index of the next element, bi the index of the incumbent maximum, bs its
score; the incumbent is replaced only on a strictly larger score. -/
def maxIdxFrom : List Candidate → Nat → Nat → ℚ → Nat
  | [], _, bi, _ => bi
  | c :: rest, i, bi, bs =>
    if bs < c.edgeScore then maxIdxFrom rest (i + 1) i c.edgeScore
    else maxIdxFrom rest (i + 1) bi bs

/-- Index of the first candidate with maximal edgeScore, which is where the
reference returned by std::max_element points into the vector. -/
def bestIdx : List Candidate → Nat
  | [] => 0
  | c :: rest => maxIdxFrom rest 1 0 c.edgeScore

/-- Insertion into a list sorted by strictly descending edgeScore. -/
def insertDesc (c : Candidate) : List Candidate → List Candidate
  | [] => [c]
  | d :: rest => if d.edgeScore < c.edgeScore then c :: d :: rest
                 else d :: insertDesc c rest

/-- The debug-logging sort (scanner.cpp lines 418-421): std::sort of the
candidate vector by descending edgeScore, modelled by insertion sort. For
pools with pairwise distinct scores the descending arrangement is unique,
so any correct sorting algorithm produces this result. -/
def sortDesc : List Candidate → List Candidate
  | [] => []
  | c :: rest => insertDesc c (sortDesc rest)

/-- Scale factor of the preprocessor (scanner.cpp lines 349-356): 600 over
the larger input dimension when that dimension exceeds 600, else 1. -/
def scaleOf (rows cols : Nat) : ℚ :=
  if 600 < max rows cols then 600 / ((max rows cols : Nat) : ℚ) else 1

/-- std::round: round half away from zero. For nonnegative q this is the
floor of q + 1/2. -/
def roundQ (q : ℚ) : Int :=
  if 0 ≤ q then ⌊q + 1 / 2⌋ else -⌊-q + 1 / 2⌋

/-- Mapping of one corner back to original-image coordinates
(scanner.cpp lines 431-434): divide each coordinate by the scale factor and
round to the nearest integer. -/
def mapBack (scale : ℚ) (p : Pt) : Pt :=
  ⟨roundQ ((p.x : ℚ) / scale), roundQ ((p.y : ℚ) / scale)⟩

/-- The in-place rescoring loop of detectDocument (scanner.cpp lines
402-405): each pooled candidate has its edgeScore multiplied once by its
area ratio. -/
def rescorePool (pool : List Candidate) (imgArea : ℚ) : List Candidate :=
  pool.map fun c => { c with edgeScore := c.edgeScore * (c.area / imgArea) }

/-- The quad the code reads at scanner.cpp line 430: std::max_element fixes
a reference to the first maximal candidate of the rescored vector (lines
407-410), the debug-logging sort then rearranges the same vector (lines
418-421), and best.quad is read through the stale reference afterwards,
i.e. from the old maximum INDEX of the now sorted vector. -/
def chosenQuad (pool : List Candidate) (imgArea : ℚ) : List Pt :=
  ((sortDesc (rescorePool pool imgArea)).getD
    (bestIdx (rescorePool pool imgArea)) dCand).quad

/-- Tail of detectDocument from the completed candidate pool
(scanner.cpp lines 391-436). An empty pool yields the empty result
(lines 391-394, surfaced by quadToJni as null). Otherwise the quad read
through the post-sort reference is scaled back to original coordinates and
ordered (lines 429-436). -/
def selectFromPool (pool : List Candidate) (imgArea : ℚ) (scale : ℚ) :
    Option (List Pt) :=
  if pool.isEmpty then none
  else some (orderPoints ((chosenQuad pool imgArea).map (mapBack scale)))

/-- A 45-degree rotated square (a diamond) in a 100 x 100 working image:
convex, area 3200, right angles, away from the border; it passes
validation, and both its coordinate sums and differences tie pairwise. -/
def diamondQ : List Pt := [⟨50, 10⟩, ⟨90, 50⟩, ⟨50, 90⟩, ⟨10, 50⟩]

/-- An axis-aligned square in a 100 x 100 working image: passes
validation, area 3600. -/
def squareQ : List Pt := [⟨20, 20⟩, ⟨80, 20⟩, ⟨80, 80⟩, ⟨20, 80⟩]

/-- A kite in a 100 x 100 working image passing validation whose interior
angles at vertices 1, 2, 3 have small cosines but whose angle at vertex 0
is about 50 degrees, cosine about 0.64. -/
def kiteQ : List Pt := [⟨50, 90⟩, ⟨71, 45⟩, ⟨50, 30⟩, ⟨29, 45⟩]

/-- A quad with 3 of its 4 corners within 3 pixels of the border of a
100 x 100 image. -/
def badBorderQ : List Pt := [⟨1, 1⟩, ⟨98, 1⟩, ⟨98, 98⟩, ⟨20, 50⟩]

/-- A one-candidate pool. -/
def poolOne : List Candidate := [⟨diamondQ, 3200, 5⟩]

/-- A two-candidate pool on which the selection stage misbehaves: after
rescaling, the square scores 10 * 0.36 = 3.6 and the diamond
30 * 0.32 = 9.6, so the maximum sits at index 1; the descending sort then
moves the minimum to index 1, and the quad is read from there. -/
def poolBug : List Candidate := [⟨squareQ, 3600, 10⟩, ⟨diamondQ, 3200, 30⟩]

/-- Degenerate quad used to exercise the empty-sample branch: all corners
coincide, so every sample lands on the single point (5, 5). -/
def collapsedQ : List Pt := [⟨5, 5⟩, ⟨5, 5⟩, ⟨5, 5⟩, ⟨5, 5⟩]

/-- A gradient map with no pixels at all: nothing is in bounds. -/
def gEmptyMap : GradMap := ⟨0, 0, fun _ _ => 0⟩

/-- A 2 x 2 gradient map. -/
def gMapA : GradMap := ⟨2, 2, fun x y => ((x + y : Int) : ℚ)⟩

/-- A map agreeing with gMapA on the 2 x 2 rectangle and wildly different
outside it. -/
def gMapB : GradMap :=
  ⟨2, 2, fun x y =>
    if 0 ≤ x ∧ x < 2 ∧ 0 ≤ y ∧ y < 2 then ((x + y : Int) : ℚ) else 99⟩

/-- The list orderPoints produces from diamondQ: the corner (50, 10) fills
both slot 0 (first minimum of x + y, tied with (10, 50)) and slot 1 (first
minimum of y - x, tied with (90, 50)); the corner (10, 50) is dropped. -/
def orderedDiamond : List Pt := [⟨50, 10⟩, ⟨50, 10⟩, ⟨90, 50⟩, ⟨50, 90⟩]

/-! Helper lemmas about the min_element and max_element folds. -/

theorem foldlMin_spec (f : Pt → Int) :
    ∀ (l : List Pt) (a : Pt),
      (l.foldl (fun b q => if f q < f b then q else b) a = a ∨
        l.foldl (fun b q => if f q < f b then q else b) a ∈ l) ∧
      f (l.foldl (fun b q => if f q < f b then q else b) a) ≤ f a ∧
      ∀ p ∈ l, f (l.foldl (fun b q => if f q < f b then q else b) a) ≤ f p := by
  intro l
  induction l with
  | nil => exact fun a => ⟨Or.inl rfl, le_refl _, by simp⟩
  | cons q rest ih =>
    intro a
    by_cases hq : f q < f a
    · have h := ih q
      rw [List.foldl_cons, if_pos hq]
      refine ⟨?_, le_trans h.2.1 (le_of_lt hq), ?_⟩
      · rcases h.1 with h1 | h1
        · right; rw [h1]; exact List.mem_cons_self q rest
        · exact Or.inr (List.mem_cons_of_mem q h1)
      · intro p hp
        rcases List.mem_cons.mp hp with h2 | h2
        · exact h2 ▸ h.2.1
        · exact h.2.2 p h2
    · have h := ih a
      rw [List.foldl_cons, if_neg hq]
      refine ⟨?_, h.2.1, ?_⟩
      · rcases h.1 with h1 | h1
        · exact Or.inl h1
        · exact Or.inr (List.mem_cons_of_mem q h1)
      · intro p hp
        rcases List.mem_cons.mp hp with h2 | h2
        · exact h2 ▸ le_trans h.2.1 (le_of_not_lt hq)
        · exact h.2.2 p h2

theorem foldlMax_spec (f : Pt → Int) :
    ∀ (l : List Pt) (a : Pt),
      (l.foldl (fun b q => if f b < f q then q else b) a = a ∨
        l.foldl (fun b q => if f b < f q then q else b) a ∈ l) ∧
      f a ≤ f (l.foldl (fun b q => if f b < f q then q else b) a) ∧
      ∀ p ∈ l, f p ≤ f (l.foldl (fun b q => if f b < f q then q else b) a) := by
  intro l
  induction l with
  | nil => exact fun a => ⟨Or.inl rfl, le_refl _, by simp⟩
  | cons q rest ih =>
    intro a
    by_cases hq : f a < f q
    · have h := ih q
      rw [List.foldl_cons, if_pos hq]
      refine ⟨?_, le_trans (le_of_lt hq) h.2.1, ?_⟩
      · rcases h.1 with h1 | h1
        · right; rw [h1]; exact List.mem_cons_self q rest
        · exact Or.inr (List.mem_cons_of_mem q h1)
      · intro p hp
        rcases List.mem_cons.mp hp with h2 | h2
        · exact h2 ▸ h.2.1
        · exact h.2.2 p h2
    · have h := ih a
      rw [List.foldl_cons, if_neg hq]
      refine ⟨?_, h.2.1, ?_⟩
      · rcases h.1 with h1 | h1
        · exact Or.inl h1
        · exact Or.inr (List.mem_cons_of_mem q h1)
      · intro p hp
        rcases List.mem_cons.mp hp with h2 | h2
        · exact h2 ▸ le_trans (le_of_not_lt hq) h.2.1
        · exact h.2.2 p h2

theorem argminBy_mem (f : Pt → Int) (pts : List Pt) (h : pts ≠ []) :
    argminBy f pts ∈ pts := by
  cases pts with
  | nil => exact absurd rfl h
  | cons q rest =>
    rcases (foldlMin_spec f rest q).1 with h1 | h1
    · show List.foldl _ q rest ∈ q :: rest
      rw [h1]; exact List.mem_cons_self q rest
    · exact List.mem_cons_of_mem q h1

theorem argminBy_min (f : Pt → Int) (pts : List Pt) :
    ∀ p ∈ pts, f (argminBy f pts) ≤ f p := by
  cases pts with
  | nil => simp
  | cons q rest =>
    intro p hp
    rcases List.mem_cons.mp hp with h2 | h2
    · exact h2 ▸ (foldlMin_spec f rest q).2.1
    · exact (foldlMin_spec f rest q).2.2 p h2

theorem argmaxBy_mem (f : Pt → Int) (pts : List Pt) (h : pts ≠ []) :
    argmaxBy f pts ∈ pts := by
  cases pts with
  | nil => exact absurd rfl h
  | cons q rest =>
    rcases (foldlMax_spec f rest q).1 with h1 | h1
    · show List.foldl _ q rest ∈ q :: rest
      rw [h1]; exact List.mem_cons_self q rest
    · exact List.mem_cons_of_mem q h1

theorem argmaxBy_max (f : Pt → Int) (pts : List Pt) :
    ∀ p ∈ pts, f p ≤ f (argmaxBy f pts) := by
  cases pts with
  | nil => simp
  | cons q rest =>
    intro p hp
    rcases List.mem_cons.mp hp with h2 | h2
    · exact h2 ▸ (foldlMax_spec f rest q).2.1
    · exact (foldlMax_spec f rest q).2.2 p h2

/-- Every slot of orderPoints holds a member of the input list. -/
theorem orderPoints_subset (pts : List Pt) (h : pts ≠ []) :
    ∀ p ∈ orderPoints pts, p ∈ pts := by
  intro p hp
  rcases List.mem_cons.mp hp with h1 | hp
  · exact h1 ▸ argminBy_mem sOf pts h
  rcases List.mem_cons.mp hp with h1 | hp
  · exact h1 ▸ argminBy_mem dOf pts h
  rcases List.mem_cons.mp hp with h1 | hp
  · exact h1 ▸ argmaxBy_mem sOf pts h
  rcases List.mem_cons.mp hp with h1 | hp
  · exact h1 ▸ argmaxBy_mem dOf pts h
  · exact absurd hp (List.not_mem_nil p)

/-- The four extremal properties of the list produced by orderPoints:
slot 0 minimizes x + y, slot 2 maximizes x + y, slot 1 minimizes y - x and
slot 3 maximizes y - x among the four output corners. -/
theorem orderPoints_extremes (pts : List Pt) :
    (∀ p ∈ orderPoints pts, sOf ((orderPoints pts).getD 0 dPt) ≤ sOf p) ∧
    (∀ p ∈ orderPoints pts, sOf p ≤ sOf ((orderPoints pts).getD 2 dPt)) ∧
    (∀ p ∈ orderPoints pts, dOf ((orderPoints pts).getD 1 dPt) ≤ dOf p) ∧
    (∀ p ∈ orderPoints pts, dOf p ≤ dOf ((orderPoints pts).getD 3 dPt)) := by
  cases pts with
  | nil =>
    refine ⟨?_, ?_, ?_, ?_⟩ <;>
      · intro p hp
        simp only [orderPoints, argminBy, argmaxBy] at hp ⊢
        rcases List.mem_cons.mp hp with h | hp
        · simp [h]
        rcases List.mem_cons.mp hp with h | hp
        · simp [h]
        rcases List.mem_cons.mp hp with h | hp
        · simp [h]
        rcases List.mem_cons.mp hp with h | hp
        · simp [h]
        · exact absurd hp (List.not_mem_nil p)
  | cons q rest =>
    have hne : q :: rest ≠ [] := List.cons_ne_nil q rest
    refine ⟨?_, ?_, ?_, ?_⟩ <;> intro p hp
    · exact argminBy_min sOf (q :: rest) p (orderPoints_subset _ hne p hp)
    · exact argmaxBy_max sOf (q :: rest) p (orderPoints_subset _ hne p hp)
    · exact argminBy_min dOf (q :: rest) p (orderPoints_subset _ hne p hp)
    · exact argmaxBy_max dOf (q :: rest) p (orderPoints_subset _ hne p hp)

/-- C1: the pipeline reports not-found (the empty result, surfaced as null
by quadToJni) iff the candidate pool is empty after all six generators ran;
otherwise the result is a list of exactly 4 points, so the negative outcome
is distinguishable from success. -/
theorem claim_empty_pool_iff_not_found (pool : List Candidate) (imgArea scale : ℚ) :
    (selectFromPool pool imgArea scale = none ↔ pool = []) ∧
    (∀ q, selectFromPool pool imgArea scale = some q → q.length = 4) := by
  cases pool with
  | nil =>
    refine ⟨by simp [selectFromPool], fun q h => ?_⟩
    simp [selectFromPool] at h
  | cons c rest =>
    refine ⟨by simp [selectFromPool], fun q h => ?_⟩
    simp only [selectFromPool, List.isEmpty_cons, Bool.false_eq_true, if_false,
      Option.some.injEq] at h
    rw [← h]
    rfl

set_option maxRecDepth 10000 in
/-- Witness for C1 at concrete pools: the empty pool maps to none, and the
one-candidate pool maps to a 4-point list. -/
theorem claim_empty_pool_iff_not_found_witness :
    selectFromPool ([] : List Candidate) 10000 1 = none ∧
    selectFromPool poolOne 10000 1 = some orderedDiamond ∧
    orderedDiamond.length = 4 :=
  ⟨(claim_empty_pool_iff_not_found [] 10000 1).1.mpr rfl,
   by with_unfolding_all decide,
   (claim_empty_pool_iff_not_found poolOne 10000 1).2 orderedDiamond
     (by with_unfolding_all decide)⟩

/-- C6: every quad the pipeline returns attains the minimum of x + y at
index 0, the maximum of x + y at index 2, the minimum of y - x at index 1
and the maximum of y - x at index 3, over its 4 corners: the TL, TR, BR, BL
convention. -/
theorem claim_returned_quad_ordering (pool : List Candidate) (imgArea scale : ℚ)
    (q : List Pt) (h : selectFromPool pool imgArea scale = some q) :
    (∀ p ∈ q, sOf (q.getD 0 dPt) ≤ sOf p) ∧
    (∀ p ∈ q, sOf p ≤ sOf (q.getD 2 dPt)) ∧
    (∀ p ∈ q, dOf (q.getD 1 dPt) ≤ dOf p) ∧
    (∀ p ∈ q, dOf p ≤ dOf (q.getD 3 dPt)) := by
  cases pool with
  | nil => simp [selectFromPool] at h
  | cons c rest =>
    simp only [selectFromPool, List.isEmpty_cons, Bool.false_eq_true, if_false,
      Option.some.injEq] at h
    exact h ▸ orderPoints_extremes _

set_option maxRecDepth 10000 in
/-- Witness for C6 at the one-candidate pool: the returned list is
orderedDiamond and satisfies the four extremal properties. -/
theorem claim_returned_quad_ordering_witness :
    (∀ p ∈ orderedDiamond, sOf (orderedDiamond.getD 0 dPt) ≤ sOf p) ∧
    (∀ p ∈ orderedDiamond, sOf p ≤ sOf (orderedDiamond.getD 2 dPt)) ∧
    (∀ p ∈ orderedDiamond, dOf (orderedDiamond.getD 1 dPt) ≤ dOf p) ∧
    (∀ p ∈ orderedDiamond, dOf p ≤ dOf (orderedDiamond.getD 3 dPt)) :=
  claim_returned_quad_ordering poolOne 10000 1 orderedDiamond
    (by with_unfolding_all decide)

/-- C8: the modelled pipeline stage is a pure function: identical pools,
working areas and scale factors yield identical results, so two invocations
of detectDocument on identical pixel data (which produce identical pools,
as every stage is deterministic) yield identical results. -/
theorem claim_determinism (pool1 pool2 : List Candidate) (a1 a2 s1 s2 : ℚ)
    (hp : pool1 = pool2) (ha : a1 = a2) (hs : s1 = s2) :
    selectFromPool pool1 a1 s1 = selectFromPool pool2 a2 s2 := by
  subst hp; subst ha; subst hs; rfl

/-- Witness for C8: two runs on the same concrete pool agree. -/
theorem claim_determinism_witness :
    selectFromPool poolOne 10000 1 = selectFromPool poolOne 10000 1 :=
  claim_determinism poolOne poolOne 10000 10000 1 1 rfl rfl rfl

/-- C10: each output slot of orderPoints is filled independently with an
argmin or argmax over the input points (first occurrence on ties), so every
output point is an input point; but the output need not be a permutation of
the input: the diamond quad passes the validity predicate, yet its ordered
output contains (50, 10) twice and omits (10, 50). -/
theorem claim_orderPoints_duplicates :
    (∀ (pts : List Pt), pts ≠ [] → ∀ p ∈ orderPoints pts, p ∈ pts) ∧
    pushesCandidate diamondQ 10000 100 100 = true ∧
    orderPoints diamondQ = orderedDiamond ∧
    (⟨10, 50⟩ : Pt) ∈ diamondQ ∧
    (⟨10, 50⟩ : Pt) ∉ orderPoints diamondQ ∧
    (orderPoints diamondQ).count ⟨50, 10⟩ = 2 ∧
    ¬ (orderPoints diamondQ).Perm diamondQ := by
  refine ⟨fun pts h => orderPoints_subset pts h, ?_, by decide, by decide,
    by decide, by decide, fun hperm => absurd (hperm.count_eq ⟨10, 50⟩) (by decide)⟩
  · set_option maxRecDepth 10000 in with_unfolding_all decide

/-- Witness for C10: the subset part applied at the diamond quad and the
duplicated corner (50, 10). -/
theorem claim_orderPoints_duplicates_witness :
    diamondQ ≠ [] ∧ (⟨50, 10⟩ : Pt) ∈ diamondQ :=
  ⟨by decide,
   claim_orderPoints_duplicates.1 diamondQ (by decide) ⟨50, 10⟩ (by decide)⟩

/-- Decomposition of the candidate admission test into its five conjuncts. -/
theorem pushes_iff (quad : List Pt) (imgArea : ℚ) (w h : Int) :
    pushesCandidate quad imgArea w h = true ↔
      quad.length = 4 ∧
      imgArea * (5 / 100) ≤ contourArea quad ∧
      contourArea quad ≤ imgArea * (85 / 100) ∧
      isContourConvex quad = true ∧
      (quad.filter (nearBorder 5 w h)).length < 3 ∧
      angleOK quad = true := by
  unfold pushesCandidate isGoodQuad
  simp only [Bool.and_eq_true, beq_iff_eq]
  constructor
  · rintro ⟨hlen, hgood⟩
    split_ifs at hgood with h1 h2 h3
    simp only [Bool.or_eq_true, decide_eq_true_eq, not_or, not_lt] at h1
    simp only [Bool.not_eq_true', Bool.not_eq_false] at h2
    exact ⟨hlen, h1.1, h1.2, h2, not_le.mp h3, hgood⟩
  · rintro ⟨hlen, hlo, hhi, hconv, hborder, hangle⟩
    refine ⟨hlen, ?_⟩
    split_ifs with h1 h2 h3
    · simp only [Bool.or_eq_true, decide_eq_true_eq] at h1
      rcases h1 with h1 | h1
      · exact absurd h1 (not_lt.mpr hlo)
      · exact absurd h1 (not_lt.mpr hhi)
    · rw [hconv] at h2
      simp at h2
    · exact absurd h3 (not_le.mpr hborder)
    · exact hangle

/-- C2: every candidate appended to the pool has, at creation, exactly 4
vertices, an area recomputed from the quad within [5%, 85%] of the working
image area, a convex polygon, and fewer than 3 of its 4 corners within 5
pixels of a border; in particular a quad with 3 of 4 corners within 3
pixels of the border is rejected regardless of its score. -/
theorem claim_validation_invariants :
    (∀ (quad : List Pt) (imgArea : ℚ) (w h : Int),
        pushesCandidate quad imgArea w h = true →
          quad.length = 4 ∧
          imgArea * (5 / 100) ≤ contourArea quad ∧
          contourArea quad ≤ imgArea * (85 / 100) ∧
          isContourConvex quad = true ∧
          (quad.filter (nearBorder 5 w h)).length < 3) ∧
    (∀ (quad : List Pt) (imgArea : ℚ) (w h : Int),
        3 ≤ (quad.filter (nearBorder 3 w h)).length →
        pushesCandidate quad imgArea w h = false) := by
  constructor
  · intro quad A w h hp
    have hps := (pushes_iff quad A w h).mp hp
    exact ⟨hps.1, hps.2.1, hps.2.2.1, hps.2.2.2.1, hps.2.2.2.2.1⟩
  · intro quad A w h h3
    have hmono : ∀ p : Pt, nearBorder 3 w h p = true → nearBorder 5 w h p = true := by
      intro p hb
      simp only [nearBorder, Bool.or_eq_true, decide_eq_true_eq, ge_iff_le] at hb ⊢
      omega
    have h5 : 3 ≤ (quad.filter (nearBorder 5 w h)).length :=
      le_trans h3 (List.monotone_filter_right quad hmono).length_le
    rcases Bool.eq_false_or_eq_true (pushesCandidate quad A w h) with ht | hf
    · exact absurd ((pushes_iff quad A w h).mp ht).2.2.2.2.1 (not_lt.mpr h5)
    · exact hf

set_option maxRecDepth 10000 in
/-- Witness for C2: the diamond quad survives and exhibits the invariants;
the quad with 3 corners within 3 pixels of the border is rejected. -/
theorem claim_validation_invariants_witness :
    (diamondQ.length = 4 ∧
     (10000 : ℚ) * (5 / 100) ≤ contourArea diamondQ ∧
     contourArea diamondQ ≤ (10000 : ℚ) * (85 / 100) ∧
     isContourConvex diamondQ = true ∧
     (diamondQ.filter (nearBorder 5 100 100)).length < 3) ∧
    pushesCandidate badBorderQ 10000 100 100 = false :=
  ⟨claim_validation_invariants.1 diamondQ 10000 100 100
     (by with_unfolding_all decide),
   claim_validation_invariants.2 badBorderQ 10000 100 100 (by decide)⟩

/-- C3 (amended): the angle loop of isGoodQuad runs j = 2, 3, 4 and hence
bounds the absolute interior-angle cosine by 0.4 only at corners 1, 2 and 3
of a surviving candidate; the corner at index 0 is never examined. The
comparisons are stated in the exact squared form: the absolute cosine is
below 0.4 iff its square is below 4 / 25. -/
theorem claim_angle_bound_on_checked_corners :
    ∀ (quad : List Pt) (imgArea : ℚ) (w h : Int),
      pushesCandidate quad imgArea w h = true →
        angleCosSq (quad.getD 2 dPt) (quad.getD 0 dPt) (quad.getD 1 dPt) < 4 / 25 ∧
        angleCosSq (quad.getD 3 dPt) (quad.getD 1 dPt) (quad.getD 2 dPt) < 4 / 25 ∧
        angleCosSq (quad.getD 0 dPt) (quad.getD 2 dPt) (quad.getD 3 dPt) < 4 / 25 := by
  intro quad A w h hp
  have hang := ((pushes_iff quad A w h).mp hp).2.2.2.2.2
  simpa only [angleOK, Bool.and_eq_true, decide_eq_true_eq, and_assoc] using hang

set_option maxRecDepth 10000 in
/-- Counterexample to C3 as stated: the kite quad survives validation (all
of area, convexity, border and the three checked angles pass), yet the
absolute cosine of its interior angle at corner 0, between the edges to
corners 1 and 3, is about 0.64: its square is not below 4 / 25, so not
every one of the 4 corners satisfies the bound. -/
theorem claim_angle_bound_counterexample :
    pushesCandidate kiteQ 10000 100 100 = true ∧
    ¬ (angleCosSq (kiteQ.getD 1 dPt) (kiteQ.getD 3 dPt) (kiteQ.getD 0 dPt)
        < 4 / 25) :=
  ⟨by with_unfolding_all decide, by with_unfolding_all decide⟩

set_option maxRecDepth 10000 in
/-- Witness for the amended C3 at the diamond quad. -/
theorem claim_angle_bound_on_checked_corners_witness :
    angleCosSq (diamondQ.getD 2 dPt) (diamondQ.getD 0 dPt) (diamondQ.getD 1 dPt)
      < 4 / 25 ∧
    angleCosSq (diamondQ.getD 3 dPt) (diamondQ.getD 1 dPt) (diamondQ.getD 2 dPt)
      < 4 / 25 ∧
    angleCosSq (diamondQ.getD 0 dPt) (diamondQ.getD 2 dPt) (diamondQ.getD 3 dPt)
      < 4 / 25 :=
  claim_angle_bound_on_checked_corners diamondQ 10000 100 100
    (by with_unfolding_all decide)

/-- Unfolding the per-sample accumulation fold: starting from (a, n), the
fold adds the gradient values of the in-bounds samples to a and their
count to n. -/
theorem scoreStep_foldl (g : GradMap) :
    ∀ (l : List (Int × Int)) (a : ℚ) (n : Nat),
      l.foldl (scoreStep g) (a, n) =
        (a + ((l.filter fun xy => inBounds g xy.1 xy.2).map
                fun xy => g.val xy.1 xy.2).sum,
         n + (l.filter fun xy => inBounds g xy.1 xy.2).length) := by
  intro l
  induction l with
  | nil => intro a n; simp
  | cons xy rest ih =>
    intro a n
    rw [List.foldl_cons]
    by_cases hb : inBounds g xy.1 xy.2 = true
    · rw [show scoreStep g (a, n) xy = (a + g.val xy.1 xy.2, n + 1) from by
        simp [scoreStep, hb]]
      rw [ih]
      simp only [List.filter_cons, hb, if_true, List.map_cons, List.sum_cons,
        List.length_cons, Prod.mk.injEq]
      constructor
      · ring
      · omega
    · rw [show scoreStep g (a, n) xy = (a, n) from by simp [scoreStep, hb]]
      rw [ih]
      simp [List.filter_cons, hb]

/-- The nested per-edge folds equal one fold over the concatenation of all
edge sample lists. -/
theorem foldl_edges_eq (g : GradMap) :
    ∀ (es : List (Pt × Pt)) (acc : ℚ × Nat),
      es.foldl (fun acc e => (edgeSampleList e.1 e.2).foldl (scoreStep g) acc) acc =
        (es.flatMap fun e => edgeSampleList e.1 e.2).foldl (scoreStep g) acc := by
  intro es
  induction es with
  | nil => intro acc; rfl
  | cons e rest ih =>
    intro acc
    rw [List.foldl_cons, ih, List.flatMap_cons, List.foldl_append]

/-- The iterative computeEdgeScore equals its declarative description: the
sum of the gradient values at the valid samples divided by their count, or
0 when no valid sample exists. -/
theorem computeEdgeScore_eq_spec (quad : List Pt) (g : GradMap) :
    computeEdgeScore quad g = edgeScoreSpec quad g := by
  simp only [computeEdgeScore, edgeScoreSpec, validSamples, allSamples]
  rw [foldl_edges_eq, scoreStep_foldl]
  simp only [zero_add]
  generalize (((cyclicPairs quad).flatMap fun e => edgeSampleList e.1 e.2).filter
    fun xy => inBounds g xy.1 xy.2) = l
  cases l with
  | nil => simp
  | cons v rest => simp

/-- C4: at creation a candidate edgeScore equals the sum of the
gradient-magnitude values at the in-bounds sample points divided by the
number of in-bounds samples, where each edge contributes
max(10, edge length) evenly spaced interpolated points, out-of-bounds
samples are skipped, and the score is 0 when no valid sample exists. -/
theorem claim_edge_score_definition :
    ∀ (quad : List Pt) (g : GradMap), computeEdgeScore quad g = edgeScoreSpec quad g :=
  fun quad g => computeEdgeScore_eq_spec quad g

/-- C9: scoring and validation never divide by zero and never read out of
bounds: the angle-cosine denominator is strictly positive for every input
including coincident points, the edge score does not depend on any value of
the gradient map outside its bounds (so no out-of-bounds read can influence
the result), and the score is 0, not a division, when no valid sample
exists. -/
theorem claim_no_div_zero_no_oob :
    (∀ p1 p2 p0 : Pt, 0 < angleDenom p1 p2 p0) ∧
    (∀ (quad : List Pt) (g g2 : GradMap),
        g.cols = g2.cols → g.rows = g2.rows →
        (∀ x y : Int, 0 ≤ x → x < g.cols → 0 ≤ y → y < g.rows →
          g.val x y = g2.val x y) →
        computeEdgeScore quad g = computeEdgeScore quad g2) ∧
    (∀ (quad : List Pt) (g : GradMap),
        validSamples quad g = [] → computeEdgeScore quad g = 0) := by
  refine ⟨?_, ?_, ?_⟩
  · intro p1 p2 p0
    simp only [angleDenom]
    exact add_pos_of_nonneg_of_pos
      (mul_nonneg
        (add_nonneg (mul_self_nonneg _) (mul_self_nonneg _))
        (add_nonneg (mul_self_nonneg _) (mul_self_nonneg _)))
      (by norm_num)
  · intro quad g g2 hc hr hv
    obtain ⟨c, r, v⟩ := g
    obtain ⟨c2, r2, v2⟩ := g2
    dsimp at hc hr hv
    subst hc
    subst hr
    rw [computeEdgeScore_eq_spec, computeEdgeScore_eq_spec]
    have hvs : validSamples quad ⟨c, r, v2⟩ = validSamples quad ⟨c, r, v⟩ := rfl
    simp only [edgeScoreSpec, hvs]
    have hmap : ((validSamples quad ⟨c, r, v⟩).map fun xy => v xy.1 xy.2) =
        ((validSamples quad ⟨c, r, v⟩).map fun xy => v2 xy.1 xy.2) := by
      refine List.map_congr_left ?_
      intro xy hxy
      have hbnd := (List.mem_filter.mp hxy).2
      simp only [inBounds, Bool.and_eq_true, decide_eq_true_eq] at hbnd
      exact hv xy.1 xy.2 hbnd.1.1.1 hbnd.1.1.2 hbnd.1.2 hbnd.2
    rw [hmap]
  · intro quad g hempty
    rw [computeEdgeScore_eq_spec]
    simp [edgeScoreSpec, hempty]

set_option maxRecDepth 10000 in
/-- Witness for C9: a concrete positive denominator at coincident points,
two concrete maps agreeing on their 2 x 2 rectangle but not outside it
yield equal scores, and a collapsed quad over an empty map scores 0. -/
theorem claim_no_div_zero_no_oob_witness :
    0 < angleDenom dPt dPt dPt ∧
    computeEdgeScore collapsedQ gMapA = computeEdgeScore collapsedQ gMapB ∧
    computeEdgeScore collapsedQ gEmptyMap = 0 := by
  refine ⟨claim_no_div_zero_no_oob.1 dPt dPt dPt,
    claim_no_div_zero_no_oob.2.1 collapsedQ gMapA gMapB rfl rfl ?_,
    claim_no_div_zero_no_oob.2.2 collapsedQ gEmptyMap
      (by with_unfolding_all decide)⟩
  intro x y hx hx2 hy hy2
  show ((x + y : Int) : ℚ) = gMapB.val x y
  simp only [gMapB]
  rw [if_pos ⟨hx, hx2, hy, hy2⟩]

/-- Rounding a rational that is an integer returns that integer. -/
theorem roundQ_intCast (z : Int) : roundQ ((z : ℚ)) = z := by
  have hhalf : ⌊(1 / 2 : ℚ)⌋ = 0 := by
    rw [Int.floor_eq_zero_iff]
    constructor <;> norm_num
  unfold roundQ
  by_cases hz : 0 ≤ ((z : ℚ))
  · rw [if_pos hz, Int.floor_int_add, hhalf, add_zero]
  · rw [if_neg hz]
    have hneg : -((z : ℚ)) = (((-z : Int)) : ℚ) := by push_cast; ring
    rw [hneg, Int.floor_int_add, hhalf, add_zero, neg_neg]

/-- C7: when the larger input dimension exceeds 600 the scale factor is
600 over that dimension and mapping a corner back multiplies each
coordinate by the inverse scale, rounding to the nearest integer; otherwise
the scale factor is 1 and mapping back is the identity. -/
theorem claim_scale_and_mapping (rows cols : Nat) (p : Pt) :
    (600 < max rows cols →
       scaleOf rows cols = 600 / ((max rows cols : Nat) : ℚ) ∧
       mapBack (scaleOf rows cols) p =
         ⟨roundQ ((p.x : ℚ) * ((max rows cols : Nat) : ℚ) / 600),
          roundQ ((p.y : ℚ) * ((max rows cols : Nat) : ℚ) / 600)⟩) ∧
    (max rows cols ≤ 600 →
       scaleOf rows cols = 1 ∧ mapBack (scaleOf rows cols) p = p) := by
  constructor
  · intro hgt
    have hs : scaleOf rows cols = 600 / ((max rows cols : Nat) : ℚ) := by
      simp [scaleOf, hgt]
    refine ⟨hs, ?_⟩
    rw [hs]
    unfold mapBack
    rw [div_div_eq_mul_div, div_div_eq_mul_div]
  · intro hle
    have hs : scaleOf rows cols = 1 := by
      simp [scaleOf, not_lt.mpr hle]
    refine ⟨hs, ?_⟩
    rw [hs]
    unfold mapBack
    simp only [div_one]
    obtain ⟨px, py⟩ := p
    simp only [roundQ_intCast]

/-- Witness for C7: an 800 x 600 input is scaled by 600 / 800 and a corner
maps back through multiplication by 800 / 600; a 400 x 600 input keeps
scale 1 and corners map back unchanged. -/
theorem claim_scale_and_mapping_witness :
    (scaleOf 800 600 = 600 / ((max 800 600 : Nat) : ℚ) ∧
     mapBack (scaleOf 800 600) ⟨100, 250⟩ =
       ⟨roundQ (((⟨100, 250⟩ : Pt).x : ℚ) * ((max 800 600 : Nat) : ℚ) / 600),
        roundQ (((⟨100, 250⟩ : Pt).y : ℚ) * ((max 800 600 : Nat) : ℚ) / 600)⟩) ∧
    (scaleOf 400 600 = 1 ∧ mapBack (scaleOf 400 600) ⟨100, 250⟩ = ⟨100, 250⟩) :=
  ⟨(claim_scale_and_mapping 800 600 ⟨100, 250⟩).1 (by decide),
   (claim_scale_and_mapping 400 600 ⟨100, 250⟩).2 (by decide)⟩

set_option maxRecDepth 10000 in
/-- C5 at a failing input (evaluating the code): both quads of poolBug pass
validation; rescoring multiplies each score once by its area ratio, giving
3.6 for the square and 9.6 for the diamond; yet the pipeline returns the
SQUARE, the candidate with the strictly smaller combined score, because the
debug-logging sort rearranges the vector between the max_element call and
the read through its stale reference. -/
theorem claim_selector_clobbered_by_sort :
    pushesCandidate squareQ 10000 100 100 = true ∧
    pushesCandidate diamondQ 10000 100 100 = true ∧
    (rescorePool poolBug 10000).map Candidate.edgeScore = [18 / 5, 48 / 5] ∧
    (rescorePool poolBug 10000).map Candidate.quad = [squareQ, diamondQ] ∧
    (18 / 5 : ℚ) < 48 / 5 ∧
    selectFromPool poolBug 10000 1 = some (orderPoints squareQ) ∧
    orderPoints squareQ ≠ orderPoints (diamondQ.map (mapBack 1)) := by
  refine ⟨?_, ?_, ?_, ?_, ?_, ?_, ?_⟩ <;> with_unfolding_all decide

end Scanner
